import Mathlib

/-!
Verification of the receipt ingestion pipeline of `financedb`.

The development shallowly embeds:
* the `POST` handler of `src/app/api/notion-receipt/route.ts` (auth gate,
  form defaulting, HEIC/HEIF normalization, size guard, the three-call
  Notion protocol and the property set sent to record creation), and
* the OCR helpers `parseAmountDK` and `guessMerchant` of `src/app/page.tsx`.

Strings are modelled at the character level (`String` / `List Char`);
JavaScript regular-expression operations are modelled by direct scanners that
mirror the backtracking behaviour of the concrete patterns in the source.
The three outbound `fetch` calls are modelled by an environment that fixes
the response the external store would give to each call.
-/

namespace FinanceDB

/-- An uploadable file as the handler sees it: `file.name`, `file.type`
(declared MIME type) and `file.size` in bytes. -/
structure FileData where
  name : String
  mime : String
  size : Nat
deriving DecidableEq, Repr

/-- The multipart form of one inbound request plus the `x-api-key` header.
`none` models an absent field or header (`form.get` / `headers.get`
returning `null`). -/
structure ReqForm where
  xApiKey : Option String
  file : Option FileData
  amount : Option String
  merchant : Option String
  date : Option String
  notes : Option String
deriving DecidableEq, Repr

/-- Outcome of one outbound `fetch`: `res.ok`, `res.status`, `res.text()`. -/
structure FetchRes where
  ok : Bool
  status : Nat
  body : String
deriving DecidableEq, Repr

/-- Ambient state read by the handler: configuration, the current date, the
external store's response to each of the three calls, and the byte size of
the JPEG that `heicConvert` would produce. -/
structure Env where
  apiKey : Option String    -- process.env.API_KEY; none = unset
  today : String            -- new Date().toISOString().slice(0, 10)
  createFU : FetchRes       -- POST /file_uploads
  fuId : String             -- the id field of createFU's JSON body
  sendFU : FetchRes         -- POST /file_uploads/{id}/send
  createPage : FetchRes     -- POST /pages
  heicOutSize : Nat
deriving DecidableEq, Repr

/-- The three outbound calls, in the order the handler can issue them. -/
inductive ExtCall where
  | createUpload
  | sendBytes
  | createPage
deriving DecidableEq, Repr

/-- An exact scaled decimal: the value `m / 10 ^ e`.  The executable model
uses this representation because every number the pipeline builds comes from
decimal digit strings with a power-of-ten exponent; comparisons are by
cross-multiplication, so no normalization is needed. -/
structure Dec where
  m : ℤ
  e : ℕ
deriving DecidableEq, Repr

/-- Numeric order on scaled decimals: `a.m / 10^a.e ≤ b.m / 10^b.e`, stated
by cross-multiplying with the (positive) denominators. -/
def Dec.le (a b : Dec) : Bool := a.m * 10 ^ b.e ≤ b.m * 10 ^ a.e

/-- Strict numeric order on scaled decimals. -/
def Dec.lt (a b : Dec) : Bool := a.m * 10 ^ b.e < b.m * 10 ^ a.e

/-- The rational value a scaled decimal denotes (specification side only). -/
def Dec.toRat (d : Dec) : ℚ := (d.m : ℚ) / 10 ^ d.e

/-- JavaScript float values as far as this route can observe them: `NaN`,
signed infinity (the `parseFloat` `Infinity` literal) and finite numbers,
the latter an exact scaled decimal.  (Double rounding/overflow is outside
the model; every finite value the claims exercise is exactly
representable.) -/
inductive JSFloat where
  | nan
  | inf (neg : Bool)
  | num (d : Dec)
deriving DecidableEq, Repr

/-- `Number.isNaN`. -/
def JSFloat.isNaN : JSFloat → Bool
  | .nan => true
  | _ => false

/-- The property map sent to the create-record call, field by field.
`none` models a key left out of the `properties` object. -/
structure PageProps where
  title : String
  date : String                 -- Date.date.start
  amount : Option JSFloat       -- Amount.number
  merchant : Option String      -- Merchant rich text
  notes : Option String         -- Notes rich text
  receipt : Option String       -- Receipt file_upload id, when attached
  receiptName : Option String   -- name given alongside the file reference
deriving DecidableEq, Repr

/-- The HTTP-level outcomes the handler can produce on the modelled paths. -/
inductive Response where
  | unauthorized                            -- 401 "Unauthorized"
  | missingFile                             -- 400 "Missing file"
  | tooLarge                                -- 413
  | upstream (status : Nat) (body : String) -- createPage failure, verbatim
  | success                                 -- 200 { ok: true }
deriving DecidableEq, Repr

/-- What one request produced: the response, the outbound calls that were
issued (in order), and the property map sent to record creation when that
call was made. -/
structure PostResult where
  response : Response
  calls : List ExtCall
  props : Option PageProps
deriving DecidableEq, Repr

/-- The API-key gate of route.ts line 21: `!API_KEY || incomingKey !== API_KEY`.
JavaScript falsiness of `API_KEY` covers both an unset variable and the
empty string. -/
def authRejected (secret : Option String) (incoming : Option String) : Bool :=
  match secret with
  | none => true
  | some s => s = "" || incoming ≠ some s

/-- The test `/\.hei[cf]$/i.test(name)`: the name ends in `.heic` or `.heif`
up to letter case. -/
def heicSuffixTest (s : String) : Bool :=
  match s.data.reverse with
  | c4 :: c3 :: c2 :: c1 :: c0 :: _ =>
      c0 = '.' && c1.toLower = 'h' && c2.toLower = 'e' && c3.toLower = 'i' &&
        (c4.toLower = 'c' || c4.toLower = 'f')
  | _ => false

/-- `name.replace(/\.hei[cf]$/i, ".jpg")`: the pattern is anchored at the end
so at most one occurrence is replaced. -/
def replaceHeicSuffix (s : String) : String :=
  if heicSuffixTest s then
    String.mk (s.data.take (s.data.length - 5) ++ ".jpg".data)
  else s

/-- The HEIC/HEIF detection of route.ts lines 38-41. -/
def isHeic (f : FileData) : Bool :=
  f.mime = "image/heic" || f.mime = "image/heif" || heicSuffixTest f.name

/-- Image normalization (route.ts lines 37-58): a detected HEIC/HEIF input is
transcoded (its byte size becomes whatever `heicConvert` returns), renamed
and retyped; any other input passes through as `uploadFile` unchanged. -/
def normalizeFile (env : Env) (f : FileData) : FileData :=
  if isHeic f then
    { name := replaceHeicSuffix f.name, mime := "image/jpeg", size := env.heicOutSize }
  else f

/-- `MAX_SINGLE = 20 * 1024 * 1024` (route.ts line 61). -/
def MAX_SINGLE : Nat := 20 * 1024 * 1024

/-- JavaScript `String.prototype.trim`: drop leading and trailing
whitespace.  (Defined directly over the character list.) -/
def jsTrim (s : String) : String :=
  String.mk
    (((s.data.dropWhile (·.isWhitespace)).reverse.dropWhile (·.isWhitespace)).reverse)

/-- Take the leading run of ASCII digits. -/
def takeDigits : List Char → List Char × List Char
  | [] => ([], [])
  | c :: cs =>
      if c.isDigit then
        let (d, r) := takeDigits cs
        (c :: d, r)
      else ([], c :: cs)

/-- Digit list to natural number. -/
def digitsToNat (ds : List Char) : Nat :=
  ds.foldl (fun acc c => 10 * acc + (c.toNat - '0'.toNat)) 0

/-- Does the input start with the exact literal `Infinity`?  (`parseFloat`
matches it case-sensitively.) -/
def infLit : List Char → Bool
  | 'I' :: 'n' :: 'f' :: 'i' :: 'n' :: 'i' :: 't' :: 'y' :: _ => true
  | _ => false

/-- JavaScript `parseFloat`: skip leading whitespace, read an optional sign,
then either the `Infinity` literal or a decimal significand with optional
fraction and optional well-formed exponent; everything after the longest
valid numeric prefix is ignored; if no numeric prefix exists the result is
`NaN`. -/
def jsParseFloat (s : String) : JSFloat :=
  let cs := s.data.dropWhile (·.isWhitespace)
  let (neg, cs) : Bool × List Char :=
    match cs with
    | '-' :: r => (true, r)
    | '+' :: r => (false, r)
    | r => (false, r)
  if infLit cs then .inf neg
  else
    let (d1, r1) := takeDigits cs
    let (d2, r2) : List Char × List Char :=
      match r1 with
      | '.' :: r => takeDigits r
      | r => ([], r)
    if d1.isEmpty && d2.isEmpty then .nan
    else
      -- significand: the digits of d1 and d2 read as one integer, with
      -- d2.length decimal places
      let m0 : ℤ := (digitsToNat (d1 ++ d2) : ℤ)
      let e : ℤ :=
        match r2 with
        | c :: r3 =>
            if c = 'e' ∨ c = 'E' then
              let (esign, r4) : Bool × List Char :=
                match r3 with
                | '-' :: r => (true, r)
                | '+' :: r => (false, r)
                | r => (false, r)
              let (ed, _) := takeDigits r4
              if ed.isEmpty then 0
              else if esign then -(digitsToNat ed : ℤ) else (digitsToNat ed : ℤ)
            else 0
        | [] => 0
      -- value = ± m0 * 10 ^ (e - d2.length), folded into the Dec shape
      let net : ℤ := e - (d2.length : ℤ)
      let d : Dec :=
        if 0 ≤ net then ⟨m0 * 10 ^ net.toNat, 0⟩ else ⟨m0, (-net).toNat⟩
      .num (if neg then ⟨-d.m, d.e⟩ else d)

/-- `s.replace(",", ".")`: a string pattern, so only the first comma (if any)
is replaced. -/
def replaceFirstComma : List Char → List Char
  | [] => []
  | c :: cs => if c = ',' then '.' :: cs else c :: replaceFirstComma cs

/-- The `fileUploadId` of route.ts lines 67-92: set only when the
create-upload-handle call succeeded and the send-bytes call succeeded
(a failing send throws inside the inner `try`, so the variable keeps its
`null` initial value). -/
def fileUploadIdOf (env : Env) : Option String :=
  if env.createFU.ok then
    if env.sendFU.ok then some env.fuId else none
  else none

/-- The outbound upload calls actually issued: send-bytes is attempted iff
the create-upload-handle response was `ok`. -/
def uploadCallsOf (env : Env) : List ExtCall :=
  if env.createFU.ok then [.createUpload, .sendBytes] else [.createUpload]

/-- `amountRaw` (route.ts line 30): trimmed `amount` field, defaulting
to the empty string via `?? ""`. -/
def amountRawOf (req : ReqForm) : String := (req.amount.map jsTrim).getD ""

/-- `merchant` (route.ts line 31). -/
def merchantOf (req : ReqForm) : String := (req.merchant.map jsTrim).getD ""

/-- `date` (route.ts line 32): `??` so only a `null` (absent) field triggers
the current-date default — the empty string is used verbatim. -/
def dateOf (env : Env) (req : ReqForm) : String := req.date.getD env.today

/-- `notes` (route.ts line 33). -/
def notesOf (req : ReqForm) : String := (req.notes.map jsTrim).getD ""

/-- The `properties` object of route.ts lines 95-114 for the given
normalized `uploadFile`. -/
def mkProps (env : Env) (req : ReqForm) (uploadFile : FileData) : PageProps :=
  let amount := jsParseFloat (String.mk (replaceFirstComma (amountRawOf req).data))
  { title := "Receipt — " ++ dateOf env req
    date := dateOf env req
    amount := if amount.isNaN then none else some amount
    merchant := if merchantOf req = "" then none else some (merchantOf req)
    notes := if notesOf req = "" then none else some (notesOf req)
    receipt := fileUploadIdOf env
    receiptName := (fileUploadIdOf env).map fun _ =>
      if uploadFile.name = "" then "receipt.jpg" else uploadFile.name }

/-- The `POST` handler of route.ts lines 18-136 on the modelled state.
Mirrors the source order: auth gate, missing-file check, form defaulting,
HEIC normalization, size guard, best-effort two-phase upload, property
build, record creation, response mapping. -/
def POST (env : Env) (req : ReqForm) : PostResult :=
  if authRejected env.apiKey req.xApiKey then
    { response := .unauthorized, calls := [], props := none }
  else
    match req.file with
    | none => { response := .missingFile, calls := [], props := none }
    | some file =>
      let uploadFile := normalizeFile env file
      if uploadFile.size > MAX_SINGLE then
        { response := .tooLarge, calls := [], props := none }
      else
        { response :=
            if env.createPage.ok then .success
            else .upstream env.createPage.status env.createPage.body
          calls := uploadCallsOf env ++ [.createPage]
          props := some (mkProps env req uploadFile) }

/-! ### The amount extractor `parseAmountDK` (page.tsx lines 13-25)

The pattern `/(\d{1,3}(?:[.\s]\d{3})*|\d+)([.,]\d{2})?/g` is modelled by a
direct scanner.  At a position starting with a digit, alternative 1
(`\d{1,3}` followed by the separator star) always succeeds, so alternative 2
(`\d+`) is unreachable and the engine never backtracks: nothing mandatory
follows the group, the star can match zero repetitions, and the final group
is optional.  Greedy left-to-right simulation is therefore exact. -/

/-- `\d{n}` at most: take up to `n` leading digits, greedily. -/
def takeAtMost : Nat → List Char → List Char × List Char
  | 0, cs => ([], cs)
  | _ + 1, [] => ([], [])
  | n + 1, c :: cs =>
      if c.isDigit then
        let (d, r) := takeAtMost n cs
        (c :: d, r)
      else ([], c :: cs)

/-- The character class `[.\s]` of the thousands-separator group. -/
def sepChar (c : Char) : Bool := c = '.' || c.isWhitespace

/-- The greedy star `(?:[.\s]\d{3})*`: as many full separator-plus-three-digit
groups as the input offers. -/
def starReps : List Char → List Char × List Char
  | s :: a :: b :: c :: r =>
      if sepChar s && a.isDigit && b.isDigit && c.isDigit then
        let (m, rest) := starReps r
        (s :: a :: b :: c :: m, rest)
      else ([], s :: a :: b :: c :: r)
  | cs => ([], cs)

/-- The optional fractional group `([.,]\d{2})?`, greedy. -/
def optFrac : List Char → List Char × List Char
  | p :: a :: b :: r =>
      if (p = '.' || p = ',') && a.isDigit && b.isDigit then ([p, a, b], r)
      else ([], p :: a :: b :: r)
  | cs => ([], cs)

/-- One attempt of the amount pattern at the current position: it matches
exactly when the position holds a digit, and the match is `\d{1,3}` greedy,
then the separator star, then the optional fraction. -/
def matchAt (cs : List Char) : Option (List Char × List Char) :=
  match cs with
  | c :: _ =>
      if c.isDigit then
        let (d, r1) := takeAtMost 3 cs
        let (m, r2) := starReps r1
        let (f, r3) := optFrac r2
        some (d ++ m ++ f, r3)
      else none
  | [] => none

/-- The `/g` scan of `text.match`: successive leftmost non-overlapping
matches.  Every match starts with a digit and is nonempty, so fuel equal to
the input length always suffices. -/
def scanMatches : Nat → List Char → List (List Char)
  | 0, _ => []
  | _ + 1, [] => []
  | fuel + 1, c :: cs =>
      match matchAt (c :: cs) with
      | some (m, rest) => m :: scanMatches fuel rest
      | none => scanMatches fuel cs

/-- `text.match(...) || []` as a list of matched substrings. -/
def amountMatches (text : String) : List String :=
  (scanMatches text.data.length text.data).map String.mk

/-- A word character in the sense of the `\b` assertion: `[A-Za-z0-9_]`. -/
def isWordChar (c : Char) : Bool := c.isAlpha || c.isDigit || c = '_'

/-- The lookahead `(?=\d{3}\b)`: three digits, then a word boundary
(end of input or a non-word character). -/
def dotLookahead : List Char → Bool
  | a :: b :: c :: rest =>
      a.isDigit && b.isDigit && c.isDigit &&
        (match rest with
         | [] => true
         | d :: _ => !isWordChar d)
  | _ => false

/-- `s.replace(/\.(?=\d{3}\b)/g, "")`: every dot whose lookahead holds is
dropped; the scan resumes after the dot either way. -/
def removeThousandsDots : List Char → List Char
  | [] => []
  | c :: cs =>
      if c = '.' && dotLookahead cs then removeThousandsDots cs
      else c :: removeThousandsDots cs

/-- The per-match normalization of page.tsx lines 18-19: strip whitespace,
strip thousands dots, then (when a comma is present) turn the first comma
into a dot. -/
def normalizeMatch (m : List Char) : List Char :=
  let s1 := m.filter (fun c => !c.isWhitespace)
  let s2 := removeThousandsDots s1
  if s2.contains ',' then replaceFirstComma s2 else s2

/-- `Number.isFinite(n) ? n : null` after `parseFloat`: keep only finite
parses. -/
def parseCandidate (m : String) : Option Dec :=
  match jsParseFloat (String.mk (normalizeMatch m.data)) with
  | .num q => some q
  | _ => none

/-- The surviving candidates of page.tsx lines 16-23: parse each match,
drop non-finite results, then keep only values in the open interval
`(0, 100000)`. -/
def amountCandidates (text : String) : List Dec :=
  ((amountMatches text).map parseCandidate).filterMap fun o =>
    match o with
    | some q => if Dec.lt ⟨0, 0⟩ q && Dec.lt q ⟨100000, 0⟩ then some q else none
    | none => none

/-- `nums.sort((a, b) => b - a)[0]` guarded by `nums.length`: sort the
candidates in descending numeric order and take the head, or `null` when
none survive. -/
def parseAmountDK (text : String) : Option Dec :=
  (List.insertionSort (fun a b => Dec.le b a) (amountCandidates text)).head?

/-! ### The merchant guesser `guessMerchant` (page.tsx lines 27-48) -/

/-- Split a character list at newline characters. -/
def splitNl : List Char → List (List Char)
  | [] => [[]]
  | c :: cs =>
      match splitNl cs, decide (c = '\n') with
      | r, true => [] :: r
      | [], false => [[c]]
      | seg :: rest, false => (c :: seg) :: rest

/-- `text.split(/\n+/).map(s => s.trim()).filter(Boolean)`: splitting on
single newlines is equivalent after the trim-and-drop-empties steps, since
the extra empty segments a `\n+` split avoids are dropped by the filter. -/
def jsLines (text : String) : List String :=
  ((splitNl text.data).map fun l => jsTrim (String.mk l)).filter (· ≠ "")

/-- Approximation of the Unicode letter class `\p{L}` over the Latin range
this app meets: ASCII letters plus the Latin-1 and Latin Extended-A letters
(excluding the two arithmetic signs interleaved in that block).  Full
Unicode category tables are outside the embedding. -/
def jsLetter (c : Char) : Bool :=
  c.isAlpha ||
    (0xC0 ≤ c.toNat && c.toNat ≤ 0x17F && c.toNat ≠ 0xD7 && c.toNat ≠ 0xF7)

/-- Approximation of `\p{N}` by the ASCII digits the deployment meets. -/
def jsNumChar (c : Char) : Bool := c.isDigit

/-- The kept class of `replace(/[^\p{L}\p{N}\s.&'-]/gu, "")`. -/
def allowedChar (c : Char) : Bool :=
  jsLetter c || jsNumChar c || c.isWhitespace ||
    c = '.' || c = '&' || c.toNat = 39 || c = '-'

/-- `replace(/\s{2,}/g, " ")`: each maximal run of two or more whitespace
characters becomes a single space; a lone whitespace character stays as it
is.  Fuel equal to the input length suffices since every step consumes at
least one character. -/
def collapseWs : Nat → List Char → List Char
  | 0, cs => cs
  | _ + 1, [] => []
  | fuel + 1, a :: rest =>
      if a.isWhitespace then
        match rest with
        | b :: rest2 =>
            if b.isWhitespace then
              ' ' :: collapseWs fuel (rest2.dropWhile (·.isWhitespace))
            else a :: b :: collapseWs fuel rest2
        | [] => [a]
      else a :: collapseWs fuel rest

/-- The per-line cleaning of page.tsx lines 36-39: drop disallowed
characters, collapse whitespace runs, trim. -/
def cleanLine (s : String) : String :=
  jsTrim (String.mk (collapseWs s.data.length (s.data.filter allowedChar)))

/-- The alternatives of the boilerplate deny-list
`/^(kvittering|receipt|faktura|moms|vat|cvr|org\.?nr|order|ordrenr|transaction)/i`,
in the engine's trial order; the optional dot of `org\.?nr` expands greedily
to `org.nr` before `orgnr`. -/
def bannedPats : List String :=
  ["kvittering", "receipt", "faktura", "moms", "vat", "cvr", "org.nr", "orgnr",
   "order", "ordrenr", "transaction"]

/-- Case-insensitive prefix test of a lowercase pattern against the input. -/
def ciStarts : List Char → List Char → Bool
  | [], _ => true
  | _ :: _, [] => false
  | p :: ps, c :: cs => p = c.toLower && ciStarts ps cs

/-- The length of the deny-list match at the start of the line (the pattern
is anchored by `^`), or `none` when the line does not match. -/
def bannedMatchLen (s : String) : Option Nat :=
  (bannedPats.find? fun p => ciStarts p.data s.data).map String.length

/-- `banned.test(line)`. -/
def bannedTest (s : String) : Bool := (bannedMatchLen s).isSome

/-- `line.replace(banned, "")`: the anchored pattern matches at most once,
at the start, and the matched prefix is removed. -/
def bannedStrip (s : String) : String :=
  match bannedMatchLen s with
  | some n => String.mk (s.data.drop n)
  | none => s

/-- `/[A-Za-zÆØÅæøå]/.test(line)`: the line contains a letter. -/
def hasLetterDK (s : String) : Bool :=
  s.data.any fun c =>
    c.isAlpha || c = 'Æ' || c = 'Ø' || c = 'Å' || c = 'æ' || c = 'ø' || c = 'å'

/-- `/\d{1,4}\s?[A-Za-z]/.test(line)`.  As a boolean test this is equivalent
to: some digit is immediately followed by an ASCII letter, or by one
whitespace character and then an ASCII letter (a longer digit run can always
donate its last digit to the `\d{1,4}` part). -/
def digitThenLetter : List Char → Bool
  | a :: b :: rest =>
      (a.isDigit && (b.isAlpha ||
          (b.isWhitespace && match rest with
            | c :: _ => c.isAlpha
            | [] => false))) ||
        digitThenLetter (b :: rest)
  | _ => false

/-- `/\d{4}/.test(line)`: four consecutive digits somewhere. -/
def hasFourDigits : List Char → Bool
  | a :: b :: c :: d :: rest =>
      (a.isDigit && b.isDigit && c.isDigit && d.isDigit) ||
        hasFourDigits (b :: c :: d :: rest)
  | _ => false

/-- The address/date heuristic of page.tsx line 44. -/
def addressLike (s : String) : Bool :=
  digitThenLetter s.data && (s.data.any (·.isDigit)) &&
    (s.data.contains ',' || hasFourDigits s.data)

/-- The loop of page.tsx lines 35-46 over the first (at most six) lines:
return the first cleaned line that is nonempty, not deny-listed, contains a
letter and does not look like an address line.  The `slice(0, 50)` of the
return site is applied by `guessMerchant`. -/
def primaryScan : List String → Option String
  | [] => none
  | l :: ls =>
      let line := cleanLine l
      if line = "" then primaryScan ls
      else if bannedTest line then primaryScan ls
      else if !hasLetterDK line then primaryScan ls
      else if addressLike line then primaryScan ls
      else some line

/-- `.slice(0, 50)` at the character level. -/
def slice50 (s : String) : String := String.mk (s.data.take 50)

/-- `guessMerchant` (page.tsx lines 27-48): scan the first six lines, else
fall back to the first raw line with the deny-list prefix stripped, trimmed
and truncated. -/
def guessMerchant (text : String) : String :=
  let lines := jsLines text
  match primaryScan (lines.take 6) with
  | some line => slice50 line
  | none => slice50 (jsTrim (bannedStrip ((lines.head?).getD "")))

/-! ### Concrete fixtures used by witnesses and counterexamples -/

/-- A successful external response. -/
def okFetch : FetchRes := ⟨true, 200, "ok"⟩

/-- A failing external response. -/
def badFetch : FetchRes := ⟨false, 502, "upstream error"⟩

/-- A baseline environment: secret configured, all three calls succeed. -/
def baseEnv : Env :=
  ⟨some "sekret", "2025-06-15", okFetch, "fu-123", okFetch, okFetch, 1000⟩

/-- A baseline non-HEIC file. -/
def baseFile : FileData := ⟨"a.png", "image/png", 100⟩

/-- A baseline request that passes the gate and carries every field. -/
def baseReq : ReqForm :=
  ⟨some "sekret", some baseFile, some "129,95", some "Netto", some "2025-06-14",
    some "weekly"⟩

/-! ### Shared structural lemmas -/

theorem POST_of_authRejected (env : Env) (req : ReqForm)
    (h : authRejected env.apiKey req.xApiKey = true) :
    POST env req = ⟨.unauthorized, [], none⟩ := by
  simp [POST, h]

theorem POST_reached (env : Env) (req : ReqForm) (f : FileData)
    (ha : authRejected env.apiKey req.xApiKey = false)
    (hf : req.file = some f)
    (hs : (normalizeFile env f).size ≤ MAX_SINGLE) :
    POST env req =
      { response :=
          if env.createPage.ok then .success
          else .upstream env.createPage.status env.createPage.body
        calls := uploadCallsOf env ++ [.createPage]
        props := some (mkProps env req (normalizeFile env f)) } := by
  have hs' : ¬ (normalizeFile env f).size > MAX_SINGLE := by omega
  simp [POST, ha, hf, hs']

theorem POST_of_missingFile (env : Env) (req : ReqForm)
    (ha : authRejected env.apiKey req.xApiKey = false) (hf : req.file = none) :
    POST env req = ⟨.missingFile, [], none⟩ := by
  simp [POST, ha, hf]

theorem POST_of_tooLarge (env : Env) (req : ReqForm) (f : FileData)
    (ha : authRejected env.apiKey req.xApiKey = false) (hf : req.file = some f)
    (hs : (normalizeFile env f).size > MAX_SINGLE) :
    POST env req = ⟨.tooLarge, [], none⟩ := by
  simp [POST, ha, hf, hs]

theorem POST_props_inv (env : Env) (req : ReqForm) (p : PageProps)
    (h : (POST env req).props = some p) :
    authRejected env.apiKey req.xApiKey = false ∧
      ∃ f, req.file = some f ∧ (normalizeFile env f).size ≤ MAX_SINGLE ∧
        p = mkProps env req (normalizeFile env f) := by
  by_cases ha : authRejected env.apiKey req.xApiKey
  · rw [POST_of_authRejected env req ha] at h
    simp at h
  · rw [Bool.not_eq_true] at ha
    refine ⟨ha, ?_⟩
    cases hf : req.file with
    | none =>
        rw [POST_of_missingFile env req ha hf] at h
        simp at h
    | some f =>
        by_cases hs : (normalizeFile env f).size > MAX_SINGLE
        · rw [POST_of_tooLarge env req f ha hf hs] at h
          simp at h
        · rw [POST_reached env req f ha hf (by omega)] at h
          simp only [Option.some.injEq] at h
          exact ⟨f, hf ▸ rfl, by omega, h.symm⟩

theorem POST_response_unauthorized_iff (env : Env) (req : ReqForm) :
    (POST env req).response = .unauthorized ↔
      authRejected env.apiKey req.xApiKey = true := by
  constructor
  · intro h
    by_cases ha : authRejected env.apiKey req.xApiKey
    · exact ha
    · exfalso
      rw [Bool.not_eq_true] at ha
      cases hf : req.file with
      | none =>
          rw [POST_of_missingFile env req ha hf] at h
          simp at h
      | some f =>
          by_cases hs : (normalizeFile env f).size > MAX_SINGLE
          · rw [POST_of_tooLarge env req f ha hf hs] at h
            simp at h
          · rw [POST_reached env req f ha hf (by omega)] at h
            by_cases hp : env.createPage.ok <;> simp [hp] at h
  · intro ha
    rw [POST_of_authRejected env req ha]

theorem authRejected_iff (s i : Option String) :
    authRejected s i = true ↔
      (s = none ∨ s = some "" ∨ ∃ k, s = some k ∧ i ≠ some k) := by
  unfold authRejected
  cases s with
  | none => simp
  | some k =>
      simp only [Bool.or_eq_true, decide_eq_true_eq, Option.some.injEq,
        reduceCtorEq, false_or]
      constructor
      · rintro (h | h)
        · exact Or.inl h
        · exact Or.inr ⟨k, rfl, h⟩
      · rintro (h | ⟨k', rfl, hne⟩)
        · exact Or.inl h
        · exact Or.inr hne

theorem toLower_eq_dot_iff (c : Char) : (c.toLower = '.') ↔ (c = '.') := by
  unfold Char.toLower
  simp only []
  by_cases h : c.toNat ≥ 65 ∧ c.toNat ≤ 90
  · rw [if_pos h]
    have h65 : 65 ≤ c.toNat := h.1
    have h90 : c.toNat ≤ 90 := h.2
    have hcne : c ≠ '.' := by
      intro he
      subst he
      exact absurd h65 (by decide)
    have hvalid : (c.toNat + 32).isValidChar := by
      left
      omega
    have htn : (Char.ofNat (c.toNat + 32)).toNat = c.toNat + 32 := by
      rw [Char.ofNat, dif_pos hvalid]
      rfl
    constructor
    · intro he
      exfalso
      have h46 : (Char.ofNat (c.toNat + 32)).toNat = 46 := by rw [he]; rfl
      omega
    · intro he
      exact absurd he hcne
  · rw [if_neg h]

theorem heicSuffixTest_iff (s : String) :
    heicSuffixTest s = true ↔
      (".heic".data <:+ s.data.map Char.toLower ∨
        ".heif".data <:+ s.data.map Char.toLower) := by
  have hrc : (".heic".data).reverse = ['c', 'i', 'e', 'h', '.'] := rfl
  have hrf : (".heif".data).reverse = ['f', 'i', 'e', 'h', '.'] := rfl
  unfold heicSuffixTest
  rw [← @List.reverse_prefix Char ".heic".data (s.data.map Char.toLower),
    ← @List.reverse_prefix Char ".heif".data (s.data.map Char.toLower),
    ← List.map_reverse, hrc, hrf]
  generalize s.data.reverse = rs
  match rs with
  | [] => simp
  | [a] => simp [List.cons_prefix_cons]
  | [a, b] => simp [List.cons_prefix_cons]
  | [a, b, c] => simp [List.cons_prefix_cons]
  | [a, b, c, d] => simp [List.cons_prefix_cons]
  | c4 :: c3 :: c2 :: c1 :: c0 :: rest =>
      simp only [List.map, List.cons_prefix_cons, List.nil_prefix, and_true,
        Bool.and_eq_true, Bool.or_eq_true, decide_eq_true_eq]
      constructor
      · rintro ⟨⟨⟨⟨h0, h1⟩, h2⟩, h3⟩, h4 | h4⟩
        · exact Or.inl ⟨h4.symm, h3.symm, h2.symm, h1.symm,
            ((toLower_eq_dot_iff c0).mpr h0).symm⟩
        · exact Or.inr ⟨h4.symm, h3.symm, h2.symm, h1.symm,
            ((toLower_eq_dot_iff c0).mpr h0).symm⟩
      · rintro (⟨h4, h3, h2, h1, h0⟩ | ⟨h4, h3, h2, h1, h0⟩)
        · exact ⟨⟨⟨⟨(toLower_eq_dot_iff c0).mp h0.symm, h1.symm⟩, h2.symm⟩,
            h3.symm⟩, Or.inl h4.symm⟩
        · exact ⟨⟨⟨⟨(toLower_eq_dot_iff c0).mp h0.symm, h1.symm⟩, h2.symm⟩,
            h3.symm⟩, Or.inr h4.symm⟩

/-! ### Claim theorems -/

/-- C1 (amended): the ingestion entry point fails with Unauthorized exactly
when the secret is unset, the secret is the empty string, or the request's
x-api-key header differs from the configured secret; in particular, when no
secret is configured every request is rejected (fail-closed), not
admitted. -/
theorem unauthorized_exactly_on_gate_failure (env : Env) (req : ReqForm) :
    (POST env req).response = .unauthorized ↔
      (env.apiKey = none ∨ env.apiKey = some "" ∨
        ∃ s, env.apiKey = some s ∧ req.xApiKey ≠ some s) :=
  (POST_response_unauthorized_iff env req).trans (authRejected_iff _ _)

/-- C1 counterexample: with no secret configured, a request (here carrying a
file and an arbitrary key) is rejected with Unauthorized, contradicting the
claim that such a request is not rejected. -/
theorem unauthorized_no_secret_cex :
    (POST { baseEnv with apiKey := none }
        { baseReq with xApiKey := some "anykey" }).response = .unauthorized := by
  rfl

/-- C9: the credential check runs before the form is read: whenever the gate
fails the response is Unauthorized — also for requests with no file — and a
missing-file BadRequest can only arise after the gate passed. -/
theorem auth_gate_precedes_form_read (env : Env) (req : ReqForm) :
    (authRejected env.apiKey req.xApiKey = true →
      (POST env req).response = .unauthorized) ∧
    ((POST env req).response = .missingFile →
      authRejected env.apiKey req.xApiKey = false ∧ req.file = none) := by
  constructor
  · intro h
    rw [POST_of_authRejected env req h]
  · intro h
    by_cases ha : authRejected env.apiKey req.xApiKey
    · rw [POST_of_authRejected env req ha] at h
      simp at h
    · rw [Bool.not_eq_true] at ha
      refine ⟨ha, ?_⟩
      cases hf : req.file with
      | none => rfl
      | some f =>
          exfalso
          by_cases hs : (normalizeFile env f).size > MAX_SINGLE
          · rw [POST_of_tooLarge env req f ha hf hs] at h
            simp at h
          · rw [POST_reached env req f ha hf (by omega)] at h
            by_cases hp : env.createPage.ok <;> simp [hp] at h

/-- C9 witness: a request with a bad key and no file gets Unauthorized. -/
theorem auth_gate_precedes_form_read_witness :
    (POST baseEnv { baseReq with xApiKey := some "wrong", file := none }).response
      = .unauthorized :=
  (auth_gate_precedes_form_read baseEnv
    { baseReq with xApiKey := some "wrong", file := none }).1 (by rfl)

/-- C10: the date default applies only to an absent date field: a present but
empty date is used verbatim (title `"Receipt — "`, date start `""`), while an
absent field gets the current ISO calendar date. -/
theorem date_default_only_when_absent (env : Env) (req : ReqForm) (p : PageProps)
    (h : (POST env req).props = some p) :
    (req.date = some "" → p.title = "Receipt — " ∧ p.date = "") ∧
    (req.date = none → p.title = "Receipt — " ++ env.today ∧ p.date = env.today) := by
  obtain ⟨-, f, -, -, hp⟩ := POST_props_inv env req p h
  subst hp
  constructor
  · intro hd
    unfold mkProps dateOf
    rw [hd]
    exact ⟨rfl, rfl⟩
  · intro hd
    unfold mkProps dateOf
    rw [hd]
    exact ⟨rfl, rfl⟩

/-- C10 witness: a request whose date field is present but empty produces the
title `"Receipt — "` and an empty date start value. -/
theorem date_default_only_when_absent_witness :
    (POST baseEnv { baseReq with date := some "" }).props.map PageProps.title
        = some "Receipt — " ∧
      (POST baseEnv { baseReq with date := some "" }).props.map PageProps.date
        = some "" := by
  have h := (date_default_only_when_absent baseEnv { baseReq with date := some "" }
    (mkProps baseEnv { baseReq with date := some "" }
      (normalizeFile baseEnv baseFile)) (by rfl)).1 rfl
  rw [show (POST baseEnv { baseReq with date := some "" }).props
      = some (mkProps baseEnv { baseReq with date := some "" }
        (normalizeFile baseEnv baseFile)) from rfl]
  exact ⟨congrArg some h.1, congrArg some h.2⟩

/-- C7: when the post-normalization size exceeds the 20 MiB ceiling the
endpoint responds PayloadTooLarge and issues none of the three external
calls. -/
theorem size_guard_rejects_before_any_call (env : Env) (req : ReqForm) (f : FileData)
    (ha : authRejected env.apiKey req.xApiKey = false)
    (hf : req.file = some f)
    (hs : (normalizeFile env f).size > MAX_SINGLE) :
    (POST env req).response = .tooLarge ∧ (POST env req).calls = [] := by
  rw [POST_of_tooLarge env req f ha hf hs]
  exact ⟨rfl, rfl⟩

/-- C7 witness: a non-HEIC file of 21 MiB is rejected with PayloadTooLarge
and no external call is made. -/
theorem size_guard_rejects_before_any_call_witness :
    (POST baseEnv
        { baseReq with file := some ⟨"big.png", "image/png", 21 * 1024 * 1024⟩ }).response
        = .tooLarge ∧
      (POST baseEnv
        { baseReq with file := some ⟨"big.png", "image/png", 21 * 1024 * 1024⟩ }).calls
        = [] :=
  size_guard_rejects_before_any_call baseEnv
    { baseReq with file := some ⟨"big.png", "image/png", 21 * 1024 * 1024⟩ }
    ⟨"big.png", "image/png", 21 * 1024 * 1024⟩ (by rfl) (by rfl) (by decide)

/-- C6: a failing record-creation call is surfaced with the external store's
status code and body unchanged, and it is the only external call whose
failure fails the request: when record creation succeeds the response is
success regardless of the two upload calls. -/
theorem record_creation_only_fatal_call (env : Env) (req : ReqForm) (f : FileData)
    (ha : authRejected env.apiKey req.xApiKey = false)
    (hf : req.file = some f)
    (hs : (normalizeFile env f).size ≤ MAX_SINGLE) :
    (env.createPage.ok = false →
      (POST env req).response = .upstream env.createPage.status env.createPage.body) ∧
    (env.createPage.ok = true → (POST env req).response = .success) := by
  rw [POST_reached env req f ha hf hs]
  constructor
  · intro hp
    simp [hp]
  · intro hp
    simp [hp]

/-- C6 witness: with both upload calls failing and record creation failing
too, the endpoint returns the store's status and body verbatim; with record
creation succeeding and both upload calls failing, the request succeeds. -/
theorem record_creation_only_fatal_call_witness :
    (POST { baseEnv with
        createFU := badFetch
        sendFU := badFetch
        createPage := ⟨false, 418, "schema mismatch"⟩ } baseReq).response
      = .upstream 418 "schema mismatch" ∧
    (POST { baseEnv with
        createFU := badFetch
        sendFU := badFetch } baseReq).response
      = .success :=
  ⟨(record_creation_only_fatal_call
      { baseEnv with
        createFU := badFetch
        sendFU := badFetch
        createPage := ⟨false, 418, "schema mismatch"⟩ } baseReq baseFile
      (by rfl) (by rfl) (by decide)).1 rfl,
    (record_creation_only_fatal_call
      { baseEnv with
        createFU := badFetch
        sendFU := badFetch } baseReq baseFile
      (by rfl) (by rfl) (by decide)).2 rfl⟩

/-- C5: if create-upload-handle fails, or send-bytes fails after it
succeeded, the record-creation call is still made and the created record
carries no file reference; and a file reference is attached only when both
upload steps succeeded, in which case it is exactly the handle id. -/
theorem degraded_upload_still_creates_record (env : Env) (req : ReqForm) (f : FileData)
    (ha : authRejected env.apiKey req.xApiKey = false)
    (hf : req.file = some f)
    (hs : (normalizeFile env f).size ≤ MAX_SINGLE) :
    ((env.createFU.ok = false ∨ env.sendFU.ok = false) →
      ExtCall.createPage ∈ (POST env req).calls ∧
      ∃ p, (POST env req).props = some p ∧ p.receipt = none ∧ p.receiptName = none) ∧
    (∀ p id, (POST env req).props = some p → p.receipt = some id →
      env.createFU.ok = true ∧ env.sendFU.ok = true ∧ id = env.fuId) := by
  rw [POST_reached env req f ha hf hs]
  constructor
  · intro hfail
    refine ⟨List.mem_append_right _ (by simp), mkProps env req (normalizeFile env f),
      rfl, ?_, ?_⟩
    · unfold mkProps fileUploadIdOf
      rcases hfail with hc | hsend
      · simp [hc]
      · cases hc : env.createFU.ok <;> simp [hc, hsend]
    · unfold mkProps fileUploadIdOf
      rcases hfail with hc | hsend
      · simp [hc]
      · cases hc : env.createFU.ok <;> simp [hc, hsend]
  · intro p id hp hr
    simp only [Option.some.injEq] at hp
    subst hp
    unfold mkProps fileUploadIdOf at hr
    simp only [] at hr
    cases hc : env.createFU.ok with
    | false => simp [hc] at hr
    | true =>
        cases hsend : env.sendFU.ok with
        | false => simp [hc, hsend] at hr
        | true =>
            simp only [hc, hsend, if_true] at hr
            simp only [Option.some.injEq] at hr
            exact ⟨rfl, rfl, hr.symm⟩

/-- C5 witness: with create-upload-handle failing, record creation is still
reached and the record has no file reference. -/
theorem degraded_upload_still_creates_record_witness :
    ExtCall.createPage ∈ (POST { baseEnv with createFU := badFetch } baseReq).calls ∧
      ∃ p, (POST { baseEnv with createFU := badFetch } baseReq).props = some p ∧
        p.receipt = none ∧ p.receiptName = none :=
  (degraded_upload_still_creates_record { baseEnv with createFU := badFetch }
    baseReq baseFile (by rfl) (by rfl) (by decide)).1 (Or.inl rfl)

/-- C4 (amended): the numeric amount property is included exactly when the
comma-to-dot-normalized amount string does not parse to NaN — an input
parsing to Infinity is therefore included, as a non-finite value — and the
merchant and notes properties are included exactly when non-empty after
trimming. -/
theorem amount_merchant_notes_inclusion (env : Env) (req : ReqForm) (p : PageProps)
    (h : (POST env req).props = some p) :
    (p.amount = none ↔
      (jsParseFloat (String.mk (replaceFirstComma (amountRawOf req).data))).isNaN
        = true) ∧
    (∀ v, p.amount = some v →
      v = jsParseFloat (String.mk (replaceFirstComma (amountRawOf req).data)) ∧
        v.isNaN = false) ∧
    (p.merchant = none ↔ merchantOf req = "") ∧
    (∀ m, p.merchant = some m → m = merchantOf req ∧ m ≠ "") ∧
    (p.notes = none ↔ notesOf req = "") ∧
    (∀ m, p.notes = some m → m = notesOf req ∧ m ≠ "") := by
  obtain ⟨-, f, -, -, hp⟩ := POST_props_inv env req p h
  subst hp
  unfold mkProps
  simp only []
  refine ⟨?_, ?_, ?_, ?_, ?_, ?_⟩
  · cases hn : (jsParseFloat (String.mk (replaceFirstComma (amountRawOf req).data))).isNaN
      <;> simp [hn]
  · intro v hv
    cases hn : (jsParseFloat (String.mk (replaceFirstComma (amountRawOf req).data))).isNaN
      <;> simp [hn] at hv ⊢
    exact ⟨hv.symm, hv ▸ hn⟩
  · by_cases hm : merchantOf req = "" <;> simp [hm]
  · intro m hm
    by_cases hm' : merchantOf req = "" <;> simp [hm'] at hm
    exact ⟨hm.symm, hm ▸ hm'⟩
  · by_cases hm : notesOf req = "" <;> simp [hm]
  · intro m hm
    by_cases hm' : notesOf req = "" <;> simp [hm'] at hm
    exact ⟨hm.symm, hm ▸ hm'⟩

/-- C4 counterexample: for the amount string `"Infinity"` the parse is
non-finite, yet the Amount property is included (with an infinite value),
contradicting the claim that it is included only for finite parses. -/
theorem infinity_amount_included_cex :
    (POST baseEnv { baseReq with amount := some "Infinity" }).props.map PageProps.amount
      = some (some (JSFloat.inf false)) := by
  rfl

/-- C4 witness: at a concrete request the characterization applies; merchant
and notes fields are present exactly as their trimmed sources are
non-empty. -/
theorem amount_merchant_notes_inclusion_witness :
    (mkProps baseEnv { baseReq with merchant := some "  ", notes := some " n " }
        (normalizeFile baseEnv baseFile)).merchant = none ∧
      ∀ m, (mkProps baseEnv { baseReq with merchant := some "  ", notes := some " n " }
        (normalizeFile baseEnv baseFile)).notes = some m →
          m = notesOf { baseReq with merchant := some "  ", notes := some " n " } ∧
            m ≠ "" := by
  have h := amount_merchant_notes_inclusion baseEnv
    { baseReq with merchant := some "  ", notes := some " n " }
    (mkProps baseEnv { baseReq with merchant := some "  ", notes := some " n " }
      (normalizeFile baseEnv baseFile)) (by rfl)
  exact ⟨h.2.2.1.mpr (by rfl), h.2.2.2.2.2⟩

/-- C8: a file is treated as HEIC/HEIF exactly when its declared MIME type is
image/heic or image/heif or its lowercased filename ends in `.heic`/`.heif`;
a detected file is renamed by replacing that suffix with `.jpg` and retyped
image/jpeg, and a non-detected file passes through unchanged. -/
theorem heic_detection_and_normalization (env : Env) (f : FileData) :
    (isHeic f = true ↔
      (f.mime = "image/heic" ∨ f.mime = "image/heif" ∨
        ".heic".data <:+ f.name.data.map Char.toLower ∨
        ".heif".data <:+ f.name.data.map Char.toLower)) ∧
    (isHeic f = true →
      normalizeFile env f =
        ⟨replaceHeicSuffix f.name, "image/jpeg", env.heicOutSize⟩) ∧
    (isHeic f = false → normalizeFile env f = f) := by
  refine ⟨?_, ?_, ?_⟩
  · unfold isHeic
    simp only [Bool.or_eq_true, decide_eq_true_eq, heicSuffixTest_iff, or_assoc]
  · intro h
    unfold normalizeFile
    rw [if_pos h]
  · intro h
    unfold normalizeFile
    rw [h]
    simp

/-- C8 witness: a file declared image/heic named `photo.HEIC` is detected
despite the upper-case extension, renamed to `photo.jpg` and retyped
image/jpeg. -/
theorem heic_detection_and_normalization_witness :
    isHeic ⟨"photo.HEIC", "image/heic", 100⟩ = true ∧
      normalizeFile baseEnv ⟨"photo.HEIC", "image/heic", 100⟩
        = ⟨"photo.jpg", "image/jpeg", 1000⟩ := by
  refine ⟨by rfl, ?_⟩
  rw [(heic_detection_and_normalization baseEnv ⟨"photo.HEIC", "image/heic", 100⟩).2.1
    (by rfl)]
  rfl

/-! ### Order lemmas for scaled decimals -/

theorem Dec.le_rfl (a : Dec) : Dec.le a a = true := by
  unfold Dec.le
  simp

theorem Dec.le_total (a b : Dec) : Dec.le a b = true ∨ Dec.le b a = true := by
  unfold Dec.le
  rcases Int.le_total (a.m * 10 ^ b.e) (b.m * 10 ^ a.e) with h | h
  · exact Or.inl (by simpa using h)
  · exact Or.inr (by simpa using h)

theorem Dec.le_trans {a b c : Dec} (hab : Dec.le a b = true)
    (hbc : Dec.le b c = true) : Dec.le a c = true := by
  unfold Dec.le at hab hbc ⊢
  rw [decide_eq_true_eq] at hab hbc ⊢
  have hbe : (0 : ℤ) < 10 ^ b.e := pow_pos (by norm_num) _
  have hae : (0 : ℤ) < 10 ^ a.e := pow_pos (by norm_num) _
  have hce : (0 : ℤ) < 10 ^ c.e := pow_pos (by norm_num) _
  have h1 := mul_le_mul_of_nonneg_right hab (le_of_lt hce)
  have h2 := mul_le_mul_of_nonneg_right hbc (le_of_lt hae)
  have h3 : a.m * 10 ^ c.e * 10 ^ b.e ≤ c.m * 10 ^ a.e * 10 ^ b.e := by
    ring_nf at h1 h2 ⊢
    linarith
  exact le_of_mul_le_mul_right h3 hbe

theorem Dec.toRat_le_iff {a b : Dec} : a.toRat ≤ b.toRat ↔ Dec.le a b = true := by
  unfold Dec.toRat Dec.le
  rw [decide_eq_true_eq, div_le_div_iff₀ (by positivity) (by positivity)]
  constructor <;> intro h <;> exact_mod_cast h

theorem Dec.toRat_lt_iff {a b : Dec} : a.toRat < b.toRat ↔ Dec.lt a b = true := by
  unfold Dec.toRat Dec.lt
  rw [decide_eq_true_eq, div_lt_div_iff₀ (by positivity) (by positivity)]
  constructor <;> intro h <;> exact_mod_cast h

/-- Every surviving amount candidate lies in the open interval
`(0, 100000)` — the filter of page.tsx line 23. -/
theorem mem_amountCandidates_bounds {text : String} {x : Dec}
    (hx : x ∈ amountCandidates text) :
    Dec.lt ⟨0, 0⟩ x = true ∧ Dec.lt x ⟨100000, 0⟩ = true := by
  unfold amountCandidates at hx
  rw [List.mem_filterMap] at hx
  obtain ⟨o, -, ho⟩ := hx
  match o with
  | none => simp at ho
  | some q =>
      simp only [] at ho
      by_cases hc : (Dec.lt ⟨0, 0⟩ q && Dec.lt q ⟨100000, 0⟩) = true
      · rw [if_pos hc] at ho
        cases ho
        simpa [Bool.and_eq_true] using hc
      · rw [if_neg hc] at ho
        exact absurd ho (by simp)

/-- C2: amount extraction returns absent exactly when no candidate survives
the finiteness and range filters; a returned value is one of the surviving
candidates, is the numerically largest of them, and lies in `(0, 100000)`;
and the text `"Subtotal 100,00 Total 129,95"` yields `129.95`. -/
theorem amount_extraction_selects_max (text : String) :
    (parseAmountDK text = none ↔ amountCandidates text = []) ∧
    (∀ v, parseAmountDK text = some v →
      v ∈ amountCandidates text ∧
        (∀ x ∈ amountCandidates text, x.toRat ≤ v.toRat) ∧
        0 < v.toRat ∧ v.toRat < 100000) ∧
    (parseAmountDK "Subtotal 100,00 Total 129,95").map Dec.toRat
      = some (12995 / 100 : ℚ) := by
  haveI hTot : IsTotal Dec (fun a b => Dec.le b a = true) :=
    ⟨fun a b => Dec.le_total b a⟩
  haveI hTrans : IsTrans Dec (fun a b => Dec.le b a = true) :=
    ⟨fun _ _ _ hab hbc => Dec.le_trans hbc hab⟩
  have hperm := List.perm_insertionSort (fun a b => Dec.le b a = true)
    (amountCandidates text)
  refine ⟨?_, ?_, ?_⟩
  · unfold parseAmountDK
    cases hL : List.insertionSort (fun a b => Dec.le b a = true)
        (amountCandidates text) with
    | nil =>
        rw [hL] at hperm
        simp only [List.head?_nil, true_iff]
        exact hperm.symm.eq_nil
    | cons a tl =>
        rw [hL] at hperm
        simp only [List.head?_cons]
        constructor
        · intro h
          exact absurd h (by simp)
        · intro h
          rw [h] at hperm
          exact absurd hperm.length_eq (by simp)
  · intro v hv
    unfold parseAmountDK at hv
    cases hL : List.insertionSort (fun a b => Dec.le b a = true)
        (amountCandidates text) with
    | nil => rw [hL] at hv; simp at hv
    | cons a tl =>
        rw [hL] at hv
        simp only [List.head?_cons, Option.some.injEq] at hv
        rw [hL] at hperm
        have hsorted := List.sorted_insertionSort (fun a b => Dec.le b a = true)
          (amountCandidates text)
        rw [hL] at hsorted
        subst hv
        have hmem : a ∈ amountCandidates text :=
          hperm.mem_iff.mp (List.mem_cons_self a tl)
        have hmax : ∀ x ∈ amountCandidates text, x.toRat ≤ a.toRat := by
          intro x hx
          have hxL : x ∈ a :: tl := hperm.mem_iff.mpr hx
          rcases List.mem_cons.mp hxL with rfl | hxtl
          · exact le_refl _
          · exact Dec.toRat_le_iff.mpr
              (List.rel_of_sorted_cons hsorted x hxtl)
        have hb := mem_amountCandidates_bounds hmem
        refine ⟨hmem, hmax, ?_, ?_⟩
        · have h0 := Dec.toRat_lt_iff.mpr hb.1
          simpa [Dec.toRat] using h0
        · have h1 := Dec.toRat_lt_iff.mpr hb.2
          simpa [Dec.toRat] using h1
  · have hval : parseAmountDK "Subtotal 100,00 Total 129,95" = some ⟨12995, 2⟩ := by
      rfl
    rw [hval]
    show some (Dec.toRat ⟨12995, 2⟩) = some (12995 / 100 : ℚ)
    norm_num [Dec.toRat]

/-- C2 witness: on the sample text the extractor returns `129.95`, which is
a surviving candidate, maximal among them, and inside `(0, 100000)`. -/
theorem amount_extraction_selects_max_witness :
    (⟨12995, 2⟩ : Dec) ∈ amountCandidates "Subtotal 100,00 Total 129,95" ∧
      (∀ x ∈ amountCandidates "Subtotal 100,00 Total 129,95",
        x.toRat ≤ (⟨12995, 2⟩ : Dec).toRat) ∧
      0 < (⟨12995, 2⟩ : Dec).toRat ∧ (⟨12995, 2⟩ : Dec).toRat < 100000 :=
  (amount_extraction_selects_max "Subtotal 100,00 Total 129,95").2.1
    ⟨12995, 2⟩ (by rfl)

/-! ### Merchant guesser lemmas -/

theorem slice50_length_le (s : String) : (slice50 s).length ≤ 50 := by
  show (s.data.take 50).length ≤ 50
  simp

/-- A line returned by the primary scan was accepted by the loop's guards,
so in particular it does not match the deny-list. -/
theorem primaryScan_not_banned : ∀ (ls : List String) (r : String),
    primaryScan ls = some r → bannedTest r = false := by
  intro ls
  induction ls with
  | nil =>
      intro r h
      simp [primaryScan] at h
  | cons l ls ih =>
      intro r h
      simp only [primaryScan] at h
      by_cases h1 : cleanLine l = ""
      · rw [if_pos h1] at h
        exact ih r h
      · rw [if_neg h1] at h
        by_cases h2 : bannedTest (cleanLine l) = true
        · rw [if_pos h2] at h
          exact ih r h
        · rw [if_neg h2] at h
          by_cases h3 : (!hasLetterDK (cleanLine l)) = true
          · rw [if_pos h3] at h
            exact ih r h
          · rw [if_neg h3] at h
            by_cases h4 : addressLike (cleanLine l) = true
            · rw [if_pos h4] at h
              exact ih r h
            · rw [if_neg h4] at h
              cases h
              simpa using h2

/-- Truncation to 50 characters does not change a case-insensitive prefix
test by a pattern of length at most 50. -/
theorem ciStarts_take (p : List Char) :
    ∀ (cs : List Char) (n : Nat), p.length ≤ n →
      ciStarts p (cs.take n) = ciStarts p cs := by
  induction p with
  | nil =>
      intro cs n h
      rfl
  | cons a ps ih =>
      intro cs n h
      cases cs with
      | nil => simp [List.take_nil]
      | cons c cs =>
          cases n with
          | zero =>
              simp at h
          | succ n =>
              simp only [List.take_succ_cons]
              unfold ciStarts
              rw [ih cs n (by simp only [List.length_cons] at h; omega)]

theorem find?_congr_on {α : Type} (f g : α → Bool) :
    ∀ (l : List α), (∀ a ∈ l, f a = g a) → l.find? f = l.find? g := by
  intro l
  induction l with
  | nil =>
      intro _
      rfl
  | cons a l ih =>
      intro h
      by_cases hg : g a = true
      · rw [List.find?_cons_of_pos _ (by rw [h a (List.mem_cons_self a l)]; exact hg),
          List.find?_cons_of_pos _ hg]
      · rw [List.find?_cons_of_neg _ (by rw [h a (List.mem_cons_self a l)]; exact hg),
          List.find?_cons_of_neg _ hg]
        exact ih fun b hb => h b (List.mem_cons_of_mem a hb)

theorem bannedMatchLen_slice50 (s : String) :
    bannedMatchLen (slice50 s) = bannedMatchLen s := by
  have hlen : ∀ p ∈ bannedPats, p.data.length ≤ 50 := by decide
  unfold bannedMatchLen
  congr 1
  apply find?_congr_on
  intro p hp
  show ciStarts p.data (s.data.take 50) = ciStarts p.data s.data
  exact ciStarts_take p.data s.data 50 (hlen p hp)

theorem bannedTest_slice50 (s : String) : bannedTest (slice50 s) = bannedTest s := by
  unfold bannedTest
  rw [bannedMatchLen_slice50]

/-- C3 (amended): the merchant guess never exceeds 50 characters, and on the
primary path over the first six cleaned lines the returned (truncated) line
never matches the boilerplate deny-list.  (On the fallback path only the one
leading deny-list prefix is stripped, so the fallback can still return a
deny-listed string — see the counterexample.) -/
theorem merchant_guess_fifty_and_primary_clean (text : String) :
    (guessMerchant text).length ≤ 50 ∧
    (∀ r, primaryScan ((jsLines text).take 6) = some r →
      guessMerchant text = slice50 r ∧ bannedTest (slice50 r) = false) := by
  constructor
  · simp only [guessMerchant]
    cases hscan : primaryScan ((jsLines text).take 6) with
    | some line => exact slice50_length_le line
    | none => exact slice50_length_le _
  · intro r hr
    have hb : bannedTest r = false := primaryScan_not_banned _ r hr
    constructor
    · simp only [guessMerchant, hr]
    · rw [bannedTest_slice50]
      exact hb

/-- C3 counterexample: on the input `"receiptreceipt"` the fallback path
strips the deny-list prefix once and returns `"receipt"`, a string that
itself matches the deny-list — refuting the claim that the guess never
matches it on the fallback path. -/
theorem merchant_guess_fallback_banned_cex :
    guessMerchant "receiptreceipt" = "receipt" ∧ bannedTest "receipt" = true := by
  exact ⟨by rfl, by rfl⟩

/-- C3 witness: on a clean one-line input the primary path fires and its
result does not match the deny-list. -/
theorem merchant_guess_fifty_and_primary_clean_witness :
    guessMerchant "SuperMarket" = slice50 "SuperMarket" ∧
      bannedTest (slice50 "SuperMarket") = false :=
  (merchant_guess_fifty_and_primary_clean "SuperMarket").2 "SuperMarket" (by rfl)

end FinanceDB
